import Mathlib

/-!
Shallow embedding of the gossip/consensus demo repository.

The primary embedding target is the camera-gossip variant
(`src/unnamed/part_000`, classes `Msg` and `Node`): its
`process_messages`, `local_decision` and `measure_and_broadcast` are the
realization of the spec's DedupFilter/AggregateStore/ConsensusEngine/Node.
The keyword-search variant (`src/test.py`, `handle_query`/`handle_result`)
is embedded separately for the two-phase protocol claims.
-/

namespace Gossip

/-- One observation record, Python tuple `(present, count, valid)` as stored
in `Node.agg[tick][from_id]`. -/
structure Obs where
  present : Bool
  count : Nat
  valid : Bool
deriving DecidableEq

/-- Dedup key `(tick, from_id)` as used in `Node.seen`. -/
abbrev Key := Nat × Nat

/-- An `OBS` gossip message payload: `{tick, from, present, count, valid}`. -/
structure ObsMsg where
  tick : Nat
  fromId : Nat
  present : Bool
  count : Nat
  valid : Bool
deriving DecidableEq

def ObsMsg.key (m : ObsMsg) : Key := (m.tick, m.fromId)

def ObsMsg.obs (m : ObsMsg) : Obs := ⟨m.present, m.count, m.valid⟩

/-- Python-dict insertion on an association list: replace the binding if the
key is present (keeping its position), append otherwise. -/
def dictInsert {α : Type} {β : Type} [DecidableEq α] (k : α) (v : β) :
    List (α × β) → List (α × β)
  | [] => [(k, v)]
  | (k', v') :: rest =>
      if k' = k then (k, v) :: rest else (k', v') :: dictInsert k v rest

/-- Python-dict lookup on an association list. -/
def dictLookup {α : Type} {β : Type} [DecidableEq α] (k : α) :
    List (α × β) → Option β
  | [] => none
  | (k', v') :: rest => if k' = k then some v' else dictLookup k rest

/-- `Node.agg`, flattened: Python `{tick: {from_id: (present, count, valid)}}`
becomes one association list keyed by `(tick, from_id)`. -/
abbrev Agg := List (Key × Obs)

/-- The decision tuple returned by `Node.local_decision`:
`(present_majority, present_ratio, contributors, total_count)`.
The Python float ratio is modelled as an exact rational. -/
structure Decision where
  majority : Bool
  ratio : ℚ
  contributors : Nat
  total_count : Nat
deriving DecidableEq

/-- `Node.local_decision` applied to a snapshot (the values of
`self.agg[tick]`): filter to valid entries, gate on the quorum, then compute
majority (`yes >= contributors - yes`), ratio, and total count.
`min_quorum` is a Python `int`, hence `Int` here. -/
def local_decision (entries : List Obs) (min_quorum : Int) : Option Decision :=
  let es := entries.filter (fun o => o.valid)
  let contributors := es.length
  if (contributors : Int) < min_quorum ∨ contributors = 0 then none
  else
    let yes := (es.filter (fun o => o.present)).length
    let total_count := (es.map (fun o => o.count)).sum
    some { majority := decide ((contributors : Int) - (yes : Int) ≤ (yes : Int)),
           ratio := (yes : ℚ) / (contributors : ℚ),
           contributors := contributors,
           total_count := total_count }

/-- Number of valid entries (*contributors*) in a snapshot. -/
def validCount (entries : List Obs) : Nat :=
  (entries.filter (fun o => o.valid)).length

/-- Number of valid entries with `present = true` in a snapshot. -/
def presentCount (entries : List Obs) : Nat :=
  ((entries.filter (fun o => o.valid)).filter (fun o => o.present)).length

/-- Sum of the `count` fields of the valid entries of a snapshot. -/
def totalMagnitude (entries : List Obs) : Nat :=
  ((entries.filter (fun o => o.valid)).map (fun o => o.count)).sum

/-- Per-node state of the camera-gossip `Node`: node id, camera-health flag
`ok`, the rebroadcast-suppression set `seen`, and the aggregate map. -/
structure Node where
  node_id : Nat
  ok : Bool
  seen : List Key
  agg : Agg
deriving DecidableEq

/-- The body of the `process_messages` drain loop for one `OBS` message: a
message whose `(tick, from)` key was already seen is dropped; otherwise the
key is recorded, the observation stored under it, and the message marked
for rebroadcast (the returned flag says it joined the outbox). -/
def processOne (st : Node) (m : ObsMsg) : Node × Bool :=
  if m.key ∈ st.seen then (st, false)
  else ({ st with seen := m.key :: st.seen, agg := dictInsert m.key m.obs st.agg }, true)

/-- `Node.process_messages`: drain the currently queued inbox in FIFO order
and return the outbox of newly-accepted messages, which are then
re-gossiped. Every message in this variant has kind `OBS`. -/
def processMessages (st : Node) : List ObsMsg → Node × List ObsMsg
  | [] => (st, [])
  | m :: rest =>
      let r1 := processOne st m
      let r2 := processMessages r1.1 rest
      (r2.1, if r1.2 then m :: r2.2 else r2.2)

/-- A run of repeated inbox drains (the gossip rounds of the main loop),
collecting every rebroadcast message in order. -/
def runDrains (st : Node) : List (List ObsMsg) → Node × List ObsMsg
  | [] => (st, [])
  | inbox :: rest =>
      let r1 := processMessages st inbox
      let r2 := runDrains r1.1 rest
      (r2.1, r1.2 ++ r2.2)

/-- Number of messages in a list carrying dedup key `k`. -/
def countKey (k : Key) (l : List ObsMsg) : Nat :=
  l.countP (fun m => decide (m.key = k))

/-- The accepting state after `processOne` takes a fresh message. -/
def acceptState (st : Node) (m : ObsMsg) : Node :=
  { st with seen := m.key :: st.seen, agg := dictInsert m.key m.obs st.agg }

/-- Invariant of reachable node states: every key stored in the aggregate
has been recorded as seen (both writers update `seen` and `agg` together). -/
def keysSubSeen (st : Node) : Prop :=
  ∀ kv ∈ st.agg, kv.1 ∈ st.seen

/-- Tail of `Node.measure_and_broadcast`: the computed observation passes
the `(tick, self.node_id)` dedup gate, and if fresh is recorded, stored in
the aggregate, and broadcast (one gossip fan-out of one message). -/
def measureEmit (st : Node) (tick : Nat) (valid present : Bool) (count : Nat) :
    Node × List ObsMsg :=
  if (tick, st.node_id) ∈ st.seen then (st, [])
  else
    ({ st with
        seen := (tick, st.node_id) :: st.seen,
        agg := dictInsert (tick, st.node_id) ⟨present, count, valid⟩ st.agg },
      [⟨tick, st.node_id, present, count, valid⟩])

/-- `Node.measure_and_broadcast`. The external frame read plus detector is
abstracted as `read : Option (Bool × Nat)`: `some (present, count)` for a
successful `cap.read` with its detection result, `none` when the read
fails. A node whose camera is already marked broken does not read at all;
a failed read marks the camera broken (`ok := false`); in both cases the
defaults `valid = false`, `present = false`, `count = 0` are kept. -/
def measure_and_broadcast (st : Node) (tick : Nat) (read : Option (Bool × Nat)) :
    Node × List ObsMsg :=
  match st.ok, read with
  | true, some pc => measureEmit st tick true pc.1 pc.2
  | true, none => measureEmit { st with ok := false } tick false false 0
  | false, _ => measureEmit st tick false false 0

/-- A sequence of measurement epochs: each element is a tick together with
that epoch's read outcome; collects every broadcast the node originates. -/
def runMeasures (st : Node) : List (Nat × Option (Bool × Nat)) → Node × List ObsMsg
  | [] => (st, [])
  | e :: rest =>
      let r1 := measure_and_broadcast st e.1 e.2
      let r2 := runMeasures r1.1 rest
      (r2.1, r1.2 ++ r2.2)

/-! ### The keyword-search variant (two-phase QUERY/RESULT gossip) -/

/-- Per-query aggregate entry of the search node: Python dict with keys
`nodes_total`, `nodes_hit`, `hit_count`, `contributors` (the sets are
modelled as duplicate-free lists via `setAdd`). -/
structure AggEntry where
  nodes_total : List Nat
  nodes_hit : List Nat
  hit_count : Nat
  contributors : List Nat
deriving DecidableEq

/-- The `defaultdict` default aggregate entry. -/
def AggEntry.empty : AggEntry := ⟨[], [], 0, []⟩

/-- Python `set.add`. -/
def setAdd {α : Type} [DecidableEq α] (x : α) (s : List α) : List α :=
  if x ∈ s then s else x :: s

/-- `defaultdict` read of `self.aggregates[query_id]`. -/
def aggGet (q : String) (l : List (String × AggEntry)) : AggEntry :=
  match dictLookup q l with
  | some e => e
  | none => AggEntry.empty

/-- State of a search-variant node (`src/test.py`). -/
structure SearchNode where
  node_id : Nat
  seen_queries : List String
  rebroadcasted_results : List (String × Nat)
  docs : List String
  faulty : Bool
  aggregates : List (String × AggEntry)
deriving DecidableEq

/-- The two message kinds of the search variant. -/
inductive SMsg where
  | query (query_id term : String)
  | result (query_id : String) (fromId : Nat) (has cnt : Nat)
deriving DecidableEq

/-- `Node.local_keyword_stats`: occurrences of `term` in the local bag of
words, the faulty offset, and the 0/1 hit flag. -/
def local_keyword_stats (st : SearchNode) (term : String) : Nat × Nat :=
  let count0 := (st.docs.filter (fun w => w = term)).length
  let cnt := if st.faulty then max 0 (count0 + 3) else count0
  (if cnt > 0 then 1 else 0, cnt)

/-- The common tally: add the contributor to `contributors`/`nodes_total`,
and if its hit flag is truthy also to `nodes_hit`, accumulating the count. -/
def tallyContribution (e : AggEntry) (nid : Nat) (has cnt : Nat) : AggEntry :=
  let e1 := { e with
      contributors := setAdd nid e.contributors,
      nodes_total := setAdd nid e.nodes_total }
  if has ≠ 0 then
    { e1 with nodes_hit := setAdd nid e1.nodes_hit, hit_count := e1.hit_count + cnt }
  else e1

/-- `Node.handle_query`: on the first sight of a query id, record it,
tally the node's own statistics, and emit its RESULT followed by the
forwarded QUERY; later sights are ignored. -/
def handle_query (st : SearchNode) (query_id term : String) :
    SearchNode × List SMsg :=
  if query_id ∈ st.seen_queries then (st, [])
  else
    let hc := local_keyword_stats st term
    ({ st with
        seen_queries := query_id :: st.seen_queries,
        aggregates := dictInsert query_id
          (tallyContribution (aggGet query_id st.aggregates) st.node_id hc.1 hc.2)
          st.aggregates },
      [SMsg.result query_id st.node_id hc.1 hc.2, SMsg.query query_id term])

/-- `Node.handle_result`: tally a contributor's result unless already
tallied, and rebroadcast it at most once per `(query_id, from_node)` key.
Reading `self.aggregates[query_id]` materializes the default entry. -/
def handle_result (st : SearchNode) (query_id : String) (fromId : Nat)
    (has cnt : Nat) : SearchNode × List SMsg :=
  let e := aggGet query_id st.aggregates
  if fromId ∈ e.contributors then
    ({ st with aggregates := dictInsert query_id e st.aggregates }, [])
  else
    let st1 := { st with
        aggregates := dictInsert query_id (tallyContribution e fromId has cnt)
          st.aggregates }
    if (query_id, fromId) ∈ st.rebroadcasted_results then (st1, [])
    else
      ({ st1 with
          rebroadcasted_results := (query_id, fromId) :: st1.rebroadcasted_results },
        [SMsg.result query_id fromId has cnt])

/-- An incoming message, as dispatched by the search node's
`process_messages`. -/
inductive SEvent where
  | qry (query_id term : String)
  | res (query_id : String) (fromId : Nat) (has cnt : Nat)
deriving DecidableEq

/-- One dispatch step of the search node's `process_messages`. -/
def searchStep (st : SearchNode) : SEvent → SearchNode × List SMsg
  | .qry q t => handle_query st q t
  | .res q f h c => handle_result st q f h c

/-- Handle a sequence of incoming messages, recording each step's output
together with the event that produced it. -/
def searchTrace (st : SearchNode) : List SEvent → List (SEvent × List SMsg)
  | [] => []
  | e :: rest => (e, (searchStep st e).2) :: searchTrace (searchStep st e).1 rest

/-- Is this message a QUERY for query id `q`? -/
def isQueryFor (q : String) : SMsg → Bool
  | .query q2 _ => q2 == q
  | .result _ _ _ _ => false

/-- Is this message a RESULT for query id `q` by contributor `c`? -/
def isResultFor (q : String) (c : Nat) : SMsg → Bool
  | .query _ _ => false
  | .result q2 f _ _ => q2 == q && f == c

/-- Is this event an incoming RESULT (so its handling is relaying)? -/
def isResEvent : SEvent → Bool
  | .qry _ _ => false
  | .res _ _ _ _ => true

/-- Number of QUERY messages for query id `q` emitted along a trace. -/
def queryForwardCount (q : String) (tr : List (SEvent × List SMsg)) : Nat :=
  (tr.map (fun p => p.2.countP (isQueryFor q))).sum

/-- Number of RESULT messages for `(q, c)` emitted while handling incoming
RESULT messages (relaying) along a trace. -/
def relayCount (q : String) (c : Nat) (tr : List (SEvent × List SMsg)) : Nat :=
  ((tr.filter (fun p => isResEvent p.1)).map
    (fun p => p.2.countP (isResultFor q c))).sum

/-! ### Helper lemmas about `local_decision` -/

theorem local_decision_eq_none_iff (entries : List Obs) (mq : Int) :
    local_decision entries mq = none ↔
      ((validCount entries : Int) < mq ∨ validCount entries = 0) := by
  simp only [local_decision, validCount]
  split
  · exact iff_of_true rfl (by assumption)
  · exact iff_of_false (by simp) (by assumption)

theorem local_decision_eq_some_iff (entries : List Obs) (mq : Int) (d : Decision) :
    local_decision entries mq = some d ↔
      (¬ ((validCount entries : Int) < mq ∨ validCount entries = 0) ∧
        d = { majority :=
                decide ((validCount entries : Int) - (presentCount entries : Int) ≤
                  (presentCount entries : Int)),
              ratio := (presentCount entries : ℚ) / (validCount entries : ℚ),
              contributors := validCount entries,
              total_count := totalMagnitude entries }) := by
  simp only [local_decision, validCount, presentCount, totalMagnitude]
  split
  · exact iff_of_false (by simp) (fun hc => hc.1 (by assumption))
  · constructor
    · intro h
      refine ⟨by assumption, ?_⟩
      exact (Option.some_inj.mp h).symm
    · intro h
      rw [h.2]

theorem presentCount_le_validCount (entries : List Obs) :
    presentCount entries ≤ validCount entries := by
  unfold presentCount validCount
  exact List.length_filter_le _ _

/-- Concrete evaluation: the two-contributor tie snapshot at quorum 1. -/
theorem local_decision_pair_q1 :
    local_decision [⟨true, 4, true⟩, ⟨false, 7, true⟩] 1 = some ⟨true, 1/2, 2, 11⟩ := by
  norm_num [local_decision, List.filter]

/-- Concrete evaluation: the two-contributor tie snapshot at quorum 2. -/
theorem local_decision_pair_q2 :
    local_decision [⟨true, 4, true⟩, ⟨false, 7, true⟩] 2 = some ⟨true, 1/2, 2, 11⟩ := by
  norm_num [local_decision, List.filter]

/-- Concrete evaluation: the two-contributor snapshot misses quorum 3. -/
theorem local_decision_pair_q3 :
    local_decision [⟨true, 4, true⟩, ⟨false, 7, true⟩] 3 = none := by
  norm_num [local_decision, List.filter]

/-! ### Helper lemmas about the dictionary operations -/

theorem dictInsert_cons_eq {α β : Type} [DecidableEq α] (k : α) (v : β) (a : α)
    (b : β) (rest : List (α × β)) (h : a = k) :
    dictInsert k v ((a, b) :: rest) = (k, v) :: rest := by
  simp [dictInsert, h]

theorem dictInsert_cons_ne {α β : Type} [DecidableEq α] (k : α) (v : β) (a : α)
    (b : β) (rest : List (α × β)) (h : ¬ a = k) :
    dictInsert k v ((a, b) :: rest) = (a, b) :: dictInsert k v rest := by
  simp [dictInsert, h]

theorem dictLookup_dictInsert_self {α β : Type} [DecidableEq α] (k : α) (v : β)
    (l : List (α × β)) : dictLookup k (dictInsert k v l) = some v := by
  induction l with
  | nil => simp [dictInsert, dictLookup]
  | cons kv rest ih =>
      obtain ⟨a, b⟩ := kv
      by_cases h : a = k
      · rw [dictInsert_cons_eq _ _ _ _ _ h]
        simp [dictLookup]
      · rw [dictInsert_cons_ne _ _ _ _ _ h]
        simp [dictLookup, h, ih]

theorem dictLookup_dictInsert_ne {α β : Type} [DecidableEq α] (k k' : α) (v : β)
    (l : List (α × β)) (h : k' ≠ k) :
    dictLookup k (dictInsert k' v l) = dictLookup k l := by
  induction l with
  | nil => simp [dictInsert, dictLookup, h]
  | cons kv rest ih =>
      obtain ⟨a, b⟩ := kv
      by_cases h2 : a = k'
      · have h3 : ¬ a = k := by
          rw [h2]
          exact h
        rw [dictInsert_cons_eq _ _ _ _ _ h2]
        simp [dictLookup, h, h3]
      · rw [dictInsert_cons_ne _ _ _ _ _ h2]
        by_cases h3 : a = k <;> simp [dictLookup, h3, ih]

theorem mem_of_dictLookup_eq_some {α β : Type} [DecidableEq α] {k : α} {v : β}
    {l : List (α × β)} (h : dictLookup k l = some v) : (k, v) ∈ l := by
  induction l with
  | nil => simp [dictLookup] at h
  | cons kv rest ih =>
      obtain ⟨a, b⟩ := kv
      by_cases h2 : a = k
      · have hb : some b = some v := by
          rw [← h]
          simp [dictLookup, h2]
        rw [← h2, ← Option.some_inj.mp hb]
        exact List.mem_cons_self _ _
      · have h3 : dictLookup k rest = some v := by
          rw [← h]
          simp [dictLookup, h2]
        exact List.mem_cons_of_mem _ (ih h3)

theorem mem_dictInsert {α β : Type} [DecidableEq α] {kv : α × β} {k : α} {v : β}
    {l : List (α × β)} (h : kv ∈ dictInsert k v l) : kv = (k, v) ∨ kv ∈ l := by
  induction l with
  | nil =>
      rcases List.mem_cons.mp h with h1 | h1
      · exact Or.inl h1
      · simp at h1
  | cons kv' rest ih =>
      obtain ⟨a, b⟩ := kv'
      by_cases h2 : a = k
      · rw [dictInsert_cons_eq _ _ _ _ _ h2] at h
        rcases List.mem_cons.mp h with h1 | h1
        · exact Or.inl h1
        · exact Or.inr (List.mem_cons_of_mem _ h1)
      · rw [dictInsert_cons_ne _ _ _ _ _ h2] at h
        rcases List.mem_cons.mp h with h1 | h1
        · refine Or.inr ?_
          rw [h1]
          exact List.mem_cons_self _ _
        · rcases ih h1 with h3 | h3
          · exact Or.inl h3
          · exact Or.inr (List.mem_cons_of_mem _ h3)

theorem mem_keys_dictInsert {α β : Type} [DecidableEq α] {x k : α} {v : β}
    {l : List (α × β)} (h : x ∈ (dictInsert k v l).map Prod.fst) :
    x = k ∨ x ∈ l.map Prod.fst := by
  rcases List.mem_map.mp h with ⟨kv, hkv, hx⟩
  rcases mem_dictInsert hkv with h2 | h2
  · refine Or.inl ?_
    rw [← hx, h2]
  · refine Or.inr ?_
    rw [← hx]
    exact List.mem_map_of_mem Prod.fst h2

theorem nodup_keys_dictInsert {α β : Type} [DecidableEq α] (k : α) (v : β)
    (l : List (α × β)) (h : (l.map Prod.fst).Nodup) :
    ((dictInsert k v l).map Prod.fst).Nodup := by
  induction l with
  | nil => simp [dictInsert]
  | cons kv rest ih =>
      obtain ⟨a, b⟩ := kv
      simp only [List.map_cons, List.nodup_cons] at h
      by_cases h2 : a = k
      · rw [dictInsert_cons_eq _ _ _ _ _ h2]
        simp only [List.map_cons, List.nodup_cons]
        exact ⟨h2 ▸ h.1, h.2⟩
      · rw [dictInsert_cons_ne _ _ _ _ _ h2]
        simp only [List.map_cons, List.nodup_cons]
        refine ⟨fun hmem => ?_, ih h.2⟩
        rcases mem_keys_dictInsert hmem with h3 | h3
        · exact h2 h3
        · exact h.1 h3

/-! ### Helper lemmas about inbox draining -/

theorem countKey_nil (k : Key) : countKey k [] = 0 := rfl

theorem countKey_cons (k : Key) (m : ObsMsg) (l : List ObsMsg) :
    countKey k (m :: l) = countKey k l + (if m.key = k then 1 else 0) := by
  simp [countKey, List.countP_cons]

theorem countKey_append (k : Key) (l₁ l₂ : List ObsMsg) :
    countKey k (l₁ ++ l₂) = countKey k l₁ + countKey k l₂ := by
  simp [countKey, List.countP_append]

theorem processMessages_cons_of_seen (st : Node) (m : ObsMsg) (rest : List ObsMsg)
    (hm : m.key ∈ st.seen) :
    processMessages st (m :: rest) = processMessages st rest := by
  simp [processMessages, processOne, hm]

theorem processMessages_cons_of_not_seen (st : Node) (m : ObsMsg)
    (rest : List ObsMsg) (hm : m.key ∉ st.seen) :
    processMessages st (m :: rest) =
      ((processMessages (acceptState st m) rest).1,
        m :: (processMessages (acceptState st m) rest).2) := by
  simp [processMessages, processOne, acceptState, hm]

theorem processMessages_seen_mono (inbox : List ObsMsg) (st : Node) (k : Key)
    (h : k ∈ st.seen) : k ∈ (processMessages st inbox).1.seen := by
  induction inbox generalizing st with
  | nil => exact h
  | cons m rest ih =>
      by_cases hm : m.key ∈ st.seen
      · rw [processMessages_cons_of_seen st m rest hm]
        exact ih st h
      · rw [processMessages_cons_of_not_seen st m rest hm]
        exact ih (acceptState st m) (List.mem_cons_of_mem _ h)

theorem processMessages_countKey_of_seen (inbox : List ObsMsg) (st : Node) (k : Key)
    (h : k ∈ st.seen) : countKey k (processMessages st inbox).2 = 0 := by
  induction inbox generalizing st with
  | nil => rfl
  | cons m rest ih =>
      by_cases hm : m.key ∈ st.seen
      · rw [processMessages_cons_of_seen st m rest hm]
        exact ih st h
      · have hne : ¬ m.key = k := fun e => hm (e ▸ h)
        rw [processMessages_cons_of_not_seen st m rest hm]
        rw [show ((processMessages (acceptState st m) rest).1,
            m :: (processMessages (acceptState st m) rest).2).2 =
          m :: (processMessages (acceptState st m) rest).2 from rfl]
        rw [countKey_cons]
        simp [hne, ih (acceptState st m) (List.mem_cons_of_mem _ h)]

theorem processMessages_countKey_le_one (inbox : List ObsMsg) (st : Node) (k : Key) :
    countKey k (processMessages st inbox).2 ≤ 1 ∧
    (1 ≤ countKey k (processMessages st inbox).2 →
      k ∈ (processMessages st inbox).1.seen) := by
  induction inbox generalizing st with
  | nil => simp [processMessages, countKey_nil]
  | cons m rest ih =>
      by_cases hm : m.key ∈ st.seen
      · rw [processMessages_cons_of_seen st m rest hm]
        exact ih st
      · rw [processMessages_cons_of_not_seen st m rest hm]
        by_cases hk : m.key = k
        · have hmem : k ∈ (acceptState st m).seen := by
            rw [← hk]
            exact List.mem_cons_self _ _
          have h0 := processMessages_countKey_of_seen rest (acceptState st m) k hmem
          have hs := processMessages_seen_mono rest (acceptState st m) k hmem
          constructor
          · rw [show ((processMessages (acceptState st m) rest).1,
                m :: (processMessages (acceptState st m) rest).2).2 =
              m :: (processMessages (acceptState st m) rest).2 from rfl]
            rw [countKey_cons, h0]
            simp [hk]
          · intro _
            exact hs
        · have ih2 := ih (acceptState st m)
          constructor
          · rw [show ((processMessages (acceptState st m) rest).1,
                m :: (processMessages (acceptState st m) rest).2).2 =
              m :: (processMessages (acceptState st m) rest).2 from rfl]
            rw [countKey_cons]
            simpa [hk] using ih2.1
          · intro h1
            rw [show ((processMessages (acceptState st m) rest).1,
                m :: (processMessages (acceptState st m) rest).2).2 =
              m :: (processMessages (acceptState st m) rest).2 from rfl] at h1
            rw [countKey_cons] at h1
            simp only [hk, if_false, Nat.add_zero] at h1
            exact ih2.2 h1

theorem runDrains_cons (st : Node) (inbox : List ObsMsg)
    (rest : List (List ObsMsg)) :
    runDrains st (inbox :: rest) =
      ((runDrains (processMessages st inbox).1 rest).1,
        (processMessages st inbox).2 ++
          (runDrains (processMessages st inbox).1 rest).2) := rfl

theorem runDrains_countKey (inboxes : List (List ObsMsg)) (st : Node) (k : Key) :
    countKey k (runDrains st inboxes).2 ≤ 1 ∧
    (k ∈ st.seen → countKey k (runDrains st inboxes).2 = 0) := by
  induction inboxes generalizing st with
  | nil => simp [runDrains, countKey_nil]
  | cons inbox rest ih =>
      have hle := processMessages_countKey_le_one inbox st k
      have hseen := processMessages_countKey_of_seen inbox st k
      have hmono := processMessages_seen_mono inbox st k
      have ih1 := ih (processMessages st inbox).1
      rw [runDrains_cons]
      rw [show ((runDrains (processMessages st inbox).1 rest).1,
          (processMessages st inbox).2 ++
            (runDrains (processMessages st inbox).1 rest).2).2 =
        (processMessages st inbox).2 ++
          (runDrains (processMessages st inbox).1 rest).2 from rfl]
      rw [countKey_append]
      constructor
      · rcases Nat.eq_zero_or_pos (countKey k (processMessages st inbox).2) with h0 | h1
        · rw [h0]
          simpa using ih1.1
        · have h2 := ih1.2 (hle.2 h1)
          have h3 := hle.1
          omega
      · intro hk
        rw [hseen hk, ih1.2 (hmono hk)]

theorem processMessages_lookup_preserved (inbox : List ObsMsg) (st : Node)
    (k : Key) (v : Obs) (hseen : k ∈ st.seen) (hl : dictLookup k st.agg = some v) :
    dictLookup k (processMessages st inbox).1.agg = some v := by
  induction inbox generalizing st with
  | nil => exact hl
  | cons m rest ih =>
      by_cases hm : m.key ∈ st.seen
      · rw [processMessages_cons_of_seen st m rest hm]
        exact ih st hseen hl
      · have hne : m.key ≠ k := fun e => hm (e ▸ hseen)
        have hl2 : dictLookup k (acceptState st m).agg = some v := by
          show dictLookup k (dictInsert m.key m.obs st.agg) = some v
          rw [dictLookup_dictInsert_ne _ _ _ _ hne]
          exact hl
        rw [processMessages_cons_of_not_seen st m rest hm]
        exact ih (acceptState st m) (List.mem_cons_of_mem _ hseen) hl2

theorem processMessages_first_accept (inbox : List ObsMsg) (st : Node)
    (k : Key) (m₀ : ObsMsg) (hns : k ∉ st.seen)
    (hf : inbox.find? (fun m => decide (m.key = k)) = some m₀) :
    k ∈ (processMessages st inbox).1.seen ∧
    dictLookup k (processMessages st inbox).1.agg = some m₀.obs ∧
    countKey k (processMessages st inbox).2 = 1 := by
  induction inbox generalizing st with
  | nil => simp [List.find?] at hf
  | cons m rest ih =>
      by_cases hk : m.key = k
      · have hm0 : m₀ = m := by
          rw [List.find?_cons_of_pos _ (by simp [hk])] at hf
          exact (Option.some_inj.mp hf).symm
        have hm : m.key ∉ st.seen := by
          rw [hk]
          exact hns
        have hmem : k ∈ (acceptState st m).seen := by
          rw [← hk]
          exact List.mem_cons_self _ _
        have hlook : dictLookup k (acceptState st m).agg = some m.obs := by
          show dictLookup k (dictInsert m.key m.obs st.agg) = some m.obs
          rw [hk]
          exact dictLookup_dictInsert_self _ _ _
        have h1 := processMessages_seen_mono rest (acceptState st m) k hmem
        have h2 := processMessages_lookup_preserved rest (acceptState st m)
          k m.obs hmem hlook
        have h3 := processMessages_countKey_of_seen rest (acceptState st m) k hmem
        rw [processMessages_cons_of_not_seen st m rest hm]
        refine ⟨h1, by rw [hm0]; exact h2, ?_⟩
        rw [show ((processMessages (acceptState st m) rest).1,
            m :: (processMessages (acceptState st m) rest).2).2 =
          m :: (processMessages (acceptState st m) rest).2 from rfl]
        rw [countKey_cons, h3]
        simp [hk]
      · have hf2 : rest.find? (fun m => decide (m.key = k)) = some m₀ := by
          rwa [List.find?_cons_of_neg _ (by simp [hk])] at hf
        by_cases hm : m.key ∈ st.seen
        · rw [processMessages_cons_of_seen st m rest hm]
          exact ih st hns hf2
        · have hns2 : k ∉ (acceptState st m).seen := by
            intro h
            rcases List.mem_cons.mp h with h | h
            · exact hk h.symm
            · exact hns h
          have ih2 := ih (acceptState st m) hns2 hf2
          rw [processMessages_cons_of_not_seen st m rest hm]
          refine ⟨ih2.1, ih2.2.1, ?_⟩
          rw [show ((processMessages (acceptState st m) rest).1,
              m :: (processMessages (acceptState st m) rest).2).2 =
            m :: (processMessages (acceptState st m) rest).2 from rfl]
          rw [countKey_cons, ih2.2.2]
          simp [hk]

/-! ### Claims C3 - C7: the consensus engine -/

/-- C3: whenever `local_decision` returns a result, the majority flag equals
`present_count >= contributors - present_count` over the valid entries of
the snapshot; in particular a snapshot with exactly two valid contributors,
one present and one absent, yields `majority = true` (PRESENT wins the tie,
`>=` rather than strict `>`). -/
theorem c3_majority_rule_ties_favor_present :
    (∀ (entries : List Obs) (mq : Int) (d : Decision),
        local_decision entries mq = some d →
        d.majority =
          decide (validCount entries - presentCount entries ≤ presentCount entries)) ∧
    (∀ c₁ c₂ : Nat,
        local_decision [⟨true, c₁, true⟩, ⟨false, c₂, true⟩] 1 =
          some ⟨true, 1/2, 2, c₁ + c₂⟩) := by
  constructor
  · intro entries mq d h
    have h2 := ((local_decision_eq_some_iff entries mq d).mp h).2
    have hle := presentCount_le_validCount entries
    rw [h2]
    simp only [decide_eq_decide]
    omega
  · intro c₁ c₂
    rw [local_decision_eq_some_iff]
    refine ⟨by simp [validCount], ?_⟩
    simp [validCount, presentCount, totalMagnitude]

/-- C3 witness: instantiating the majority-rule statement at a concrete
snapshot where `local_decision` returns a result. -/
theorem c3_majority_rule_ties_favor_present_witness :
    ((⟨true, 1/2, 2, 11⟩ : Decision).majority = decide
        (validCount [⟨true, 4, true⟩, ⟨false, 7, true⟩] -
            presentCount [⟨true, 4, true⟩, ⟨false, 7, true⟩] ≤
          presentCount [⟨true, 4, true⟩, ⟨false, 7, true⟩])) ∧
    local_decision [⟨true, 4, true⟩, ⟨false, 7, true⟩] 1 = some ⟨true, 1/2, 2, 4 + 7⟩ :=
  ⟨c3_majority_rule_ties_favor_present.1 _ 1 _ local_decision_pair_q1,
    c3_majority_rule_ties_favor_present.2 4 7⟩

/-- C4: entries with `valid = false` are excluded entirely: appending any
number of invalid observations to a snapshot leaves the entire result of
`local_decision` (quorum gate, majority, ratio, contributors, total count)
unchanged. -/
theorem c4_invalid_entries_excluded (entries extra : List Obs) (mq : Int)
    (h : ∀ o ∈ extra, o.valid = false) :
    local_decision (entries ++ extra) mq = local_decision entries mq := by
  have hextra : extra.filter (fun o => o.valid) = [] := by
    rw [List.filter_eq_nil_iff]
    intro o ho
    simp [h o ho]
  unfold local_decision
  rw [List.filter_append, hextra, List.append_nil]

/-- C4 witness: adding two invalid observations to a one-element snapshot
leaves the decision unchanged. -/
theorem c4_invalid_entries_excluded_witness :
    local_decision ([⟨true, 2, true⟩] ++ [⟨true, 5, false⟩, ⟨false, 0, false⟩]) 1 =
      local_decision [⟨true, 2, true⟩] 1 :=
  c4_invalid_entries_excluded [⟨true, 2, true⟩] [⟨true, 5, false⟩, ⟨false, 0, false⟩] 1
    (by decide)

/-- C5: `local_decision` returns no decision exactly when the number of valid
contributors is below `min_quorum` or is zero; in particular a snapshot with
zero valid contributors yields no decision for every `min_quorum`. -/
theorem c5_noquorum_characterization :
    (∀ (entries : List Obs) (mq : Int),
        local_decision entries mq = none ↔
          ((validCount entries : Int) < mq ∨ validCount entries = 0)) ∧
    (∀ (entries : List Obs) (mq : Int),
        validCount entries = 0 → local_decision entries mq = none) := by
  constructor
  · exact local_decision_eq_none_iff
  · intro entries mq h
    exact (local_decision_eq_none_iff entries mq).mpr (Or.inr h)

/-- C5 witness: a snapshot whose entries are all invalid yields no decision,
also at `min_quorum = 0`. -/
theorem c5_noquorum_characterization_witness :
    local_decision [⟨true, 3, false⟩, ⟨false, 1, false⟩] 0 = none :=
  c5_noquorum_characterization.2 [⟨true, 3, false⟩, ⟨false, 1, false⟩] 0 (by decide)

/-- C6: for a fixed snapshot, if `local_decision` returns no decision at
threshold `k` it also returns none at `k + 1`; and any two thresholds at
which a decision is returned yield the identical decision (the threshold
only gates, it never changes the computed result). -/
theorem c6_quorum_monotone_and_threshold_independent :
    (∀ (entries : List Obs) (k : Int),
        local_decision entries k = none → local_decision entries (k + 1) = none) ∧
    (∀ (entries : List Obs) (k₁ k₂ : Int) (d₁ d₂ : Decision),
        local_decision entries k₁ = some d₁ → local_decision entries k₂ = some d₂ →
        d₁ = d₂) := by
  constructor
  · intro entries k h
    rw [local_decision_eq_none_iff] at h ⊢
    omega
  · intro entries k₁ k₂ d₁ d₂ h₁ h₂
    rw [((local_decision_eq_some_iff entries k₁ d₁).mp h₁).2,
      ((local_decision_eq_some_iff entries k₂ d₂).mp h₂).2]

/-- C6 witness: on a two-contributor snapshot, no decision at threshold 3
gives no decision at threshold 4, and the decisions at thresholds 1 and 2
coincide. -/
theorem c6_quorum_monotone_and_threshold_independent_witness :
    local_decision [⟨true, 4, true⟩, ⟨false, 7, true⟩] (3 + 1) = none ∧
    (⟨true, 1/2, 2, 11⟩ : Decision) = ⟨true, 1/2, 2, 11⟩ :=
  ⟨c6_quorum_monotone_and_threshold_independent.1 [⟨true, 4, true⟩, ⟨false, 7, true⟩] 3
      local_decision_pair_q3,
    c6_quorum_monotone_and_threshold_independent.2 [⟨true, 4, true⟩, ⟨false, 7, true⟩]
      1 2 _ _ local_decision_pair_q1 local_decision_pair_q2⟩

/-- C7: Scenario A — a snapshot of five valid observations, three present
and two absent, at `min_quorum = 1` yields contributors 5, present count 3,
ratio 0.6 and majority `true`; and in general the `total_count` of any
returned decision is the sum of the magnitudes of the valid contributors. -/
theorem c7_scenario_a_and_total_magnitude :
    (∀ c₁ c₂ c₃ c₄ c₅ : Nat,
        local_decision [⟨true, c₁, true⟩, ⟨true, c₂, true⟩, ⟨true, c₃, true⟩,
            ⟨false, c₄, true⟩, ⟨false, c₅, true⟩] 1 =
          some ⟨true, 0.6, 5, c₁ + c₂ + c₃ + c₄ + c₅⟩) ∧
    (∀ (entries : List Obs) (mq : Int) (d : Decision),
        local_decision entries mq = some d → d.total_count = totalMagnitude entries) := by
  constructor
  · intro c₁ c₂ c₃ c₄ c₅
    rw [local_decision_eq_some_iff]
    refine ⟨by simp [validCount], ?_⟩
    simp only [Decision.mk.injEq]
    refine ⟨?_, ?_, ?_, ?_⟩ <;> simp [validCount, presentCount, totalMagnitude]
    · norm_num
    · omega
  · intro entries mq d h
    rw [((local_decision_eq_some_iff entries mq d).mp h).2]

/-- C7 witness: Scenario A at concrete magnitudes, and its total count is
the sum of the valid magnitudes. -/
theorem c7_scenario_a_and_total_magnitude_witness :
    local_decision [⟨true, 10, true⟩, ⟨true, 20, true⟩, ⟨true, 30, true⟩,
        ⟨false, 1, true⟩, ⟨false, 2, true⟩] 1 =
      some ⟨true, 0.6, 5, 10 + 20 + 30 + 1 + 2⟩ ∧
    (⟨true, 0.6, 5, 10 + 20 + 30 + 1 + 2⟩ : Decision).total_count =
      totalMagnitude [⟨true, 10, true⟩, ⟨true, 20, true⟩,
        ⟨true, 30, true⟩, ⟨false, 1, true⟩, ⟨false, 2, true⟩] :=
  ⟨c7_scenario_a_and_total_magnitude.1 10 20 30 1 2,
    c7_scenario_a_and_total_magnitude.2 _ 1 _
      (c7_scenario_a_and_total_magnitude.1 10 20 30 1 2)⟩

/-! ### Further invariant lemmas for the dedup gate -/

theorem processOne_idem (st : Node) (m : ObsMsg) :
    processOne (processOne st m).1 m = ((processOne st m).1, false) := by
  by_cases hm : m.key ∈ st.seen
  · simp [processOne, hm]
  · simp [processOne, hm]

theorem processMessages_nodup_keys (inbox : List ObsMsg) (st : Node)
    (h : (st.agg.map Prod.fst).Nodup) :
    ((processMessages st inbox).1.agg.map Prod.fst).Nodup := by
  induction inbox generalizing st with
  | nil => exact h
  | cons m rest ih =>
      by_cases hm : m.key ∈ st.seen
      · rw [processMessages_cons_of_seen st m rest hm]
        exact ih st h
      · rw [processMessages_cons_of_not_seen st m rest hm]
        exact ih (acceptState st m) (nodup_keys_dictInsert _ _ _ h)

theorem processMessages_keysSubSeen (inbox : List ObsMsg) (st : Node)
    (h : keysSubSeen st) : keysSubSeen (processMessages st inbox).1 := by
  induction inbox generalizing st with
  | nil => exact h
  | cons m rest ih =>
      by_cases hm : m.key ∈ st.seen
      · rw [processMessages_cons_of_seen st m rest hm]
        exact ih st h
      · rw [processMessages_cons_of_not_seen st m rest hm]
        refine ih (acceptState st m) ?_
        intro kv hkv
        rcases mem_dictInsert hkv with h1 | h1
        · rw [h1]
          exact List.mem_cons_self _ _
        · exact List.mem_cons_of_mem _ (h kv h1)

/-! ### Claims C1 and C2: the dedup gate and idempotent aggregation -/

/-- C1: over an entire run of inbox drains, a node re-broadcasts a given
`(epoch, originator)` key at most once, and never if the key was already
recorded; moreover on the drain where a key first arrives (key not yet
seen), the node records the key, stores the first arriving observation for
it in the aggregate, and queues exactly one re-broadcast; later arrivals in
the same drain are dropped. -/
theorem c1_rebroadcast_at_most_once_per_key :
    (∀ (st : Node) (inboxes : List (List ObsMsg)) (k : Key),
        countKey k (runDrains st inboxes).2 ≤ 1 ∧
        (k ∈ st.seen → countKey k (runDrains st inboxes).2 = 0)) ∧
    (∀ (st : Node) (inbox : List ObsMsg) (k : Key) (m₀ : ObsMsg),
        k ∉ st.seen → inbox.find? (fun m => decide (m.key = k)) = some m₀ →
        k ∈ (processMessages st inbox).1.seen ∧
        dictLookup k (processMessages st inbox).1.agg = some m₀.obs ∧
        countKey k (processMessages st inbox).2 = 1) :=
  ⟨fun st inboxes k => runDrains_countKey inboxes st k,
    fun st inbox k m₀ h1 h2 => processMessages_first_accept inbox st k m₀ h1 h2⟩

/-- C1 witness: a node that has already seen `(7, 1)` re-broadcasts it zero
times over two further drains; a fresh node receiving the message twice in
one drain records the key, stores its observation, and re-broadcasts it
exactly once. -/
theorem c1_rebroadcast_at_most_once_per_key_witness :
    (countKey (7, 1) (runDrains ⟨0, true, [(7, 1)], []⟩
        [[⟨7, 1, true, 5, true⟩], [⟨7, 1, true, 5, true⟩]]).2 ≤ 1 ∧
      countKey (7, 1) (runDrains ⟨0, true, [(7, 1)], []⟩
        [[⟨7, 1, true, 5, true⟩], [⟨7, 1, true, 5, true⟩]]).2 = 0) ∧
    ((7, 1) ∈ (processMessages ⟨0, true, [], []⟩
        [⟨7, 1, true, 5, true⟩, ⟨7, 1, true, 5, true⟩]).1.seen ∧
      dictLookup (7, 1) (processMessages ⟨0, true, [], []⟩
          [⟨7, 1, true, 5, true⟩, ⟨7, 1, true, 5, true⟩]).1.agg =
        some (ObsMsg.obs ⟨7, 1, true, 5, true⟩) ∧
      countKey (7, 1) (processMessages ⟨0, true, [], []⟩
        [⟨7, 1, true, 5, true⟩, ⟨7, 1, true, 5, true⟩]).2 = 1) :=
  ⟨⟨(c1_rebroadcast_at_most_once_per_key.1 ⟨0, true, [(7, 1)], []⟩
        [[⟨7, 1, true, 5, true⟩], [⟨7, 1, true, 5, true⟩]] (7, 1)).1,
      (c1_rebroadcast_at_most_once_per_key.1 ⟨0, true, [(7, 1)], []⟩
        [[⟨7, 1, true, 5, true⟩], [⟨7, 1, true, 5, true⟩]] (7, 1)).2 (by decide)⟩,
    c1_rebroadcast_at_most_once_per_key.2 ⟨0, true, [], []⟩
      [⟨7, 1, true, 5, true⟩, ⟨7, 1, true, 5, true⟩] (7, 1) ⟨7, 1, true, 5, true⟩
      (by decide) (by decide)⟩

/-- C2: processing the same observation message a second time leaves the
node state unchanged and the message is not accepted again (idempotent
merge); draining preserves at-most-one-aggregate-entry-per-key; draining
preserves the stored-keys-are-seen invariant; and under that invariant an
existing (first-accepted) aggregate entry is never overwritten or removed
by any later drain. -/
theorem c2_idempotent_merge_keeps_first_accepted :
    (∀ (st : Node) (m : ObsMsg),
        processOne (processOne st m).1 m = ((processOne st m).1, false)) ∧
    (∀ (st : Node) (inbox : List ObsMsg),
        (st.agg.map Prod.fst).Nodup →
        ((processMessages st inbox).1.agg.map Prod.fst).Nodup) ∧
    (∀ (st : Node) (inbox : List ObsMsg),
        keysSubSeen st → keysSubSeen (processMessages st inbox).1) ∧
    (∀ (st : Node) (inbox : List ObsMsg) (k : Key) (v : Obs),
        keysSubSeen st → dictLookup k st.agg = some v →
        dictLookup k (processMessages st inbox).1.agg = some v) :=
  ⟨processOne_idem,
    fun st inbox h => processMessages_nodup_keys inbox st h,
    fun st inbox h => processMessages_keysSubSeen inbox st h,
    fun st inbox k v hinv hl =>
      processMessages_lookup_preserved inbox st k v
        (hinv _ (mem_of_dictLookup_eq_some hl)) hl⟩

/-- C2 witness: a node holding the first-accepted entry for `(7, 1)` drains
a duplicate plus a fresh key; the duplicate changes nothing and the stored
entry survives unchanged. -/
theorem c2_idempotent_merge_keeps_first_accepted_witness :
    (processOne (processOne ⟨0, true, [(7, 1)], [((7, 1), ⟨true, 5, true⟩)]⟩
          ⟨8, 2, false, 3, true⟩).1 ⟨8, 2, false, 3, true⟩ =
        ((processOne ⟨0, true, [(7, 1)], [((7, 1), ⟨true, 5, true⟩)]⟩
          ⟨8, 2, false, 3, true⟩).1, false)) ∧
    ((processMessages ⟨0, true, [(7, 1)], [((7, 1), ⟨true, 5, true⟩)]⟩
        [⟨7, 1, false, 9, true⟩, ⟨8, 2, false, 3, true⟩]).1.agg.map Prod.fst).Nodup ∧
    keysSubSeen (processMessages ⟨0, true, [(7, 1)], [((7, 1), ⟨true, 5, true⟩)]⟩
        [⟨7, 1, false, 9, true⟩, ⟨8, 2, false, 3, true⟩]).1 ∧
    dictLookup (7, 1) (processMessages ⟨0, true, [(7, 1)], [((7, 1), ⟨true, 5, true⟩)]⟩
        [⟨7, 1, false, 9, true⟩, ⟨8, 2, false, 3, true⟩]).1.agg =
      some ⟨true, 5, true⟩ :=
  ⟨c2_idempotent_merge_keeps_first_accepted.1 _ _,
    c2_idempotent_merge_keeps_first_accepted.2.1 _ _ (by decide),
    c2_idempotent_merge_keeps_first_accepted.2.2.1 _ _
      (by unfold keysSubSeen; decide),
    c2_idempotent_merge_keeps_first_accepted.2.2.2 _ _ (7, 1) ⟨true, 5, true⟩
      (by unfold keysSubSeen; decide) (by decide)⟩

/-! ### Helper lemmas for the search variant -/

theorem queryForwardCount_cons (q : String) (e : SEvent) (out : List SMsg)
    (tr : List (SEvent × List SMsg)) :
    queryForwardCount q ((e, out) :: tr) =
      out.countP (isQueryFor q) + queryForwardCount q tr := by
  simp [queryForwardCount]

theorem relayCount_cons (q : String) (c : Nat) (e : SEvent) (out : List SMsg)
    (tr : List (SEvent × List SMsg)) :
    relayCount q c ((e, out) :: tr) =
      (if isResEvent e then out.countP (isResultFor q c) else 0) +
        relayCount q c tr := by
  by_cases h : isResEvent e <;> simp [relayCount, List.filter_cons, h]

theorem handle_query_snd_countP (st : SearchNode) (q' t q : String) :
    (handle_query st q' t).2.countP (isQueryFor q) =
      if q' ∉ st.seen_queries ∧ q' = q then 1 else 0 := by
  by_cases hs : q' ∈ st.seen_queries
  · simp [handle_query, hs]
  · by_cases hq : q' = q
    · subst hq
      simp [handle_query, hs, isQueryFor, List.countP_cons]
    · simp [handle_query, hs, hq, isQueryFor, List.countP_cons]

theorem handle_query_countP_le_one (st : SearchNode) (q' t q : String) :
    (handle_query st q' t).2.countP (isQueryFor q) ≤ 1 := by
  rw [handle_query_snd_countP]
  split <;> omega

theorem handle_query_countP_of_seen (st : SearchNode) (q' t q : String)
    (h : q ∈ st.seen_queries) :
    (handle_query st q' t).2.countP (isQueryFor q) = 0 := by
  rw [handle_query_snd_countP]
  by_cases hc : q' ∉ st.seen_queries ∧ q' = q
  · exact absurd (by rw [hc.2]; exact h) hc.1
  · rw [if_neg hc]

theorem handle_query_seen_mono (st : SearchNode) (q' t q : String)
    (h : q ∈ st.seen_queries) : q ∈ (handle_query st q' t).1.seen_queries := by
  by_cases hs : q' ∈ st.seen_queries
  · simpa [handle_query, hs] using h
  · simp [handle_query, hs]
    exact Or.inr h

theorem handle_query_mem_of_forwarded (st : SearchNode) (q' t q : String)
    (h : 1 ≤ (handle_query st q' t).2.countP (isQueryFor q)) :
    q ∈ (handle_query st q' t).1.seen_queries := by
  rw [handle_query_snd_countP] at h
  by_cases hc : q' ∉ st.seen_queries ∧ q' = q
  · rw [← hc.2]
    simp [handle_query, hc.1]
  · rw [if_neg hc] at h
    exact absurd h (by omega)

theorem handle_query_rebroadcasted (st : SearchNode) (q' t : String) :
    (handle_query st q' t).1.rebroadcasted_results = st.rebroadcasted_results := by
  by_cases hs : q' ∈ st.seen_queries <;> simp [handle_query, hs]

theorem handle_result_no_query (st : SearchNode) (q2 : String) (f has cnt : Nat)
    (q : String) : (handle_result st q2 f has cnt).2.countP (isQueryFor q) = 0 := by
  by_cases hc : f ∈ (aggGet q2 st.aggregates).contributors
  · simp [handle_result, hc]
  · by_cases hr : (q2, f) ∈ st.rebroadcasted_results <;>
      simp [handle_result, hc, hr, isQueryFor, List.countP_cons]

theorem handle_result_seen_queries (st : SearchNode) (q2 : String)
    (f has cnt : Nat) :
    (handle_result st q2 f has cnt).1.seen_queries = st.seen_queries := by
  by_cases hc : f ∈ (aggGet q2 st.aggregates).contributors
  · simp [handle_result, hc]
  · by_cases hr : (q2, f) ∈ st.rebroadcasted_results <;>
      simp [handle_result, hc, hr]

theorem handle_result_snd_countP (st : SearchNode) (q2 : String)
    (f has cnt : Nat) (q : String) (c : Nat) :
    (handle_result st q2 f has cnt).2.countP (isResultFor q c) =
      if f ∉ (aggGet q2 st.aggregates).contributors ∧
          (q2, f) ∉ st.rebroadcasted_results ∧ q2 = q ∧ f = c then 1 else 0 := by
  by_cases hc : f ∈ (aggGet q2 st.aggregates).contributors
  · simp [handle_result, hc]
  · by_cases hr : (q2, f) ∈ st.rebroadcasted_results
    · simp [handle_result, hc, hr]
    · by_cases hq : q2 = q
      · subst hq
        by_cases hf : f = c
        · subst hf
          simp [handle_result, hc, hr, isResultFor, List.countP_cons]
        · simp [handle_result, hc, hr, hf, isResultFor, List.countP_cons]
      · simp [handle_result, hc, hr, hq, isResultFor, List.countP_cons]

theorem handle_result_countP_le_one (st : SearchNode) (q2 : String)
    (f has cnt : Nat) (q : String) (c : Nat) :
    (handle_result st q2 f has cnt).2.countP (isResultFor q c) ≤ 1 := by
  rw [handle_result_snd_countP]
  split <;> omega

theorem handle_result_countP_of_rebroadcast (st : SearchNode) (q2 : String)
    (f has cnt : Nat) (q : String) (c : Nat)
    (h : (q, c) ∈ st.rebroadcasted_results) :
    (handle_result st q2 f has cnt).2.countP (isResultFor q c) = 0 := by
  rw [handle_result_snd_countP]
  by_cases hcond : f ∉ (aggGet q2 st.aggregates).contributors ∧
      (q2, f) ∉ st.rebroadcasted_results ∧ q2 = q ∧ f = c
  · exact absurd (by rw [hcond.2.2.1, hcond.2.2.2]; exact h) hcond.2.1
  · rw [if_neg hcond]

theorem handle_result_rebro_mono (st : SearchNode) (q2 : String)
    (f has cnt : Nat) (k : String × Nat) (h : k ∈ st.rebroadcasted_results) :
    k ∈ (handle_result st q2 f has cnt).1.rebroadcasted_results := by
  by_cases hc : f ∈ (aggGet q2 st.aggregates).contributors
  · simpa [handle_result, hc] using h
  · by_cases hr : (q2, f) ∈ st.rebroadcasted_results
    · simpa [handle_result, hc, hr] using h
    · simp [handle_result, hc, hr]
      exact Or.inr h

theorem handle_result_mem_of_relayed (st : SearchNode) (q2 : String)
    (f has cnt : Nat) (q : String) (c : Nat)
    (h : 1 ≤ (handle_result st q2 f has cnt).2.countP (isResultFor q c)) :
    (q, c) ∈ (handle_result st q2 f has cnt).1.rebroadcasted_results := by
  rw [handle_result_snd_countP] at h
  by_cases hcond : f ∉ (aggGet q2 st.aggregates).contributors ∧
      (q2, f) ∉ st.rebroadcasted_results ∧ q2 = q ∧ f = c
  · rw [← hcond.2.2.1, ← hcond.2.2.2]
    simp [handle_result, hcond.1, hcond.2.1]
  · rw [if_neg hcond] at h
    exact absurd h (by omega)

theorem searchTrace_query_count (events : List SEvent) (st : SearchNode)
    (q : String) :
    queryForwardCount q (searchTrace st events) ≤ 1 ∧
    (q ∈ st.seen_queries → queryForwardCount q (searchTrace st events) = 0) := by
  induction events generalizing st with
  | nil => simp [searchTrace, queryForwardCount]
  | cons e rest ih =>
      rw [show searchTrace st (e :: rest) =
        (e, (searchStep st e).2) :: searchTrace (searchStep st e).1 rest from rfl]
      rw [queryForwardCount_cons]
      cases e with
      | qry q' t =>
          simp only [searchStep]
          have ih1 := ih (handle_query st q' t).1
          constructor
          · by_cases h1 : 1 ≤ (handle_query st q' t).2.countP (isQueryFor q)
            · have h0 := ih1.2 (handle_query_mem_of_forwarded st q' t q h1)
              have hle := handle_query_countP_le_one st q' t q
              omega
            · have := ih1.1
              omega
          · intro hq
            rw [handle_query_countP_of_seen st q' t q hq,
              ih1.2 (handle_query_seen_mono st q' t q hq)]
      | res q2 f has cnt =>
          simp only [searchStep]
          have ih1 := ih (handle_result st q2 f has cnt).1
          rw [handle_result_no_query st q2 f has cnt q]
          constructor
          · have := ih1.1
            omega
          · intro hq
            have hq2 : q ∈ (handle_result st q2 f has cnt).1.seen_queries := by
              rw [handle_result_seen_queries]
              exact hq
            rw [ih1.2 hq2]

theorem searchTrace_relay_count (events : List SEvent) (st : SearchNode)
    (q : String) (c : Nat) :
    relayCount q c (searchTrace st events) ≤ 1 ∧
    ((q, c) ∈ st.rebroadcasted_results →
      relayCount q c (searchTrace st events) = 0) := by
  induction events generalizing st with
  | nil => simp [searchTrace, relayCount]
  | cons e rest ih =>
      rw [show searchTrace st (e :: rest) =
        (e, (searchStep st e).2) :: searchTrace (searchStep st e).1 rest from rfl]
      rw [relayCount_cons]
      cases e with
      | qry q' t =>
          simp only [searchStep, isResEvent, Bool.false_eq_true, if_false]
          have ih1 := ih (handle_query st q' t).1
          constructor
          · have := ih1.1
            omega
          · intro hk
            have hk2 : (q, c) ∈ (handle_query st q' t).1.rebroadcasted_results := by
              rw [handle_query_rebroadcasted]
              exact hk
            simpa using ih1.2 hk2
      | res q2 f has cnt =>
          simp only [searchStep, isResEvent, if_true]
          have ih1 := ih (handle_result st q2 f has cnt).1
          constructor
          · by_cases h1 : 1 ≤ (handle_result st q2 f has cnt).2.countP (isResultFor q c)
            · have h0 := ih1.2 (handle_result_mem_of_relayed st q2 f has cnt q c h1)
              have hle := handle_result_countP_le_one st q2 f has cnt q c
              omega
            · have := ih1.1
              omega
          · intro hk
            rw [handle_result_countP_of_rebroadcast st q2 f has cnt q c hk,
              ih1.2 (handle_result_rebro_mono st q2 f has cnt (q, c) hk)]

/-! ### Claim C8: two-phase QUERY/RESULT dedup -/

/-- C8: in the keyword-search variant, over any sequence of handled
messages a node forwards a given QUERY at most once per query id, and
relays (re-broadcasts while handling incoming RESULT messages) a given
contributor's RESULT at most once per `(query, contributor)` pair — the
relaying key is the contributor `from_node`, not the message identity. -/
theorem c8_query_forwarded_once_result_relayed_once_per_contributor :
    ∀ (st : SearchNode) (events : List SEvent) (q : String) (c : Nat),
      queryForwardCount q (searchTrace st events) ≤ 1 ∧
      relayCount q c (searchTrace st events) ≤ 1 :=
  fun st events q c =>
    ⟨(searchTrace_query_count events st q).1,
      (searchTrace_relay_count events st q c).1⟩

/-! ### Claims C9 and C10: measurement failure handling -/

theorem measure_and_broadcast_ok_false (st : Node) (tick : Nat)
    (read : Option (Bool × Nat)) (h : st.ok = false) :
    (measure_and_broadcast st tick read).1.ok = false ∧
    ∀ m ∈ (measure_and_broadcast st tick read).2, m.valid = false := by
  obtain ⟨nid, ok, seen, agg⟩ := st
  simp only at h
  subst h
  by_cases hmem : (tick, nid) ∈ seen <;>
    cases read <;>
      simp [measure_and_broadcast, measureEmit, hmem]

/-- C9: a failed frame read raises nothing and is not retried within the
epoch: the node marks its camera broken and pushes the observation
`(present := false, count := 0, valid := false)` — no measured magnitude —
through exactly the same `(tick, node_id)` dedup gate, aggregate update and
broadcast as a successful reading; and whatever the read outcome, the gate
emits one broadcast if the key is fresh and zero if it was already seen. -/
theorem c9_failed_read_broadcasts_invalid_observation :
    (∀ (st : Node) (tick : Nat),
        measure_and_broadcast st tick none =
          if (tick, st.node_id) ∈ st.seen then ({ st with ok := false }, [])
          else ({ st with
                    ok := false,
                    seen := (tick, st.node_id) :: st.seen,
                    agg := dictInsert (tick, st.node_id) ⟨false, 0, false⟩ st.agg },
                [⟨tick, st.node_id, false, 0, false⟩])) ∧
    (∀ (st : Node) (tick : Nat) (read : Option (Bool × Nat)),
        (measure_and_broadcast st tick read).2.length =
          if (tick, st.node_id) ∈ st.seen then 0 else 1) := by
  constructor
  · intro st tick
    obtain ⟨nid, ok, seen, agg⟩ := st
    by_cases hmem : (tick, nid) ∈ seen <;>
      cases ok <;>
        simp [measure_and_broadcast, measureEmit, hmem]
  · intro st tick read
    obtain ⟨nid, ok, seen, agg⟩ := st
    by_cases hmem : (tick, nid) ∈ seen <;>
      cases ok <;>
        cases read <;>
          simp [measure_and_broadcast, measureEmit, hmem]

/-- C10: implicit persistence of camera failure — after any failed read the
`ok` flag is false, and from an `ok = false` state every later epoch keeps
`ok = false` and every observation the node itself broadcasts carries
`valid = false`, whatever the later read outcomes would have been. -/
theorem c10_camera_failure_is_permanent :
    (∀ (st : Node) (tick : Nat),
        (measure_and_broadcast st tick none).1.ok = false) ∧
    (∀ (st : Node) (epochs : List (Nat × Option (Bool × Nat))),
        st.ok = false →
        (runMeasures st epochs).1.ok = false ∧
        ∀ m ∈ (runMeasures st epochs).2, m.valid = false) := by
  constructor
  · intro st tick
    obtain ⟨nid, ok, seen, agg⟩ := st
    by_cases hmem : (tick, nid) ∈ seen <;>
      cases ok <;>
        simp [measure_and_broadcast, measureEmit, hmem]
  · intro st epochs
    induction epochs generalizing st with
    | nil =>
        intro h
        exact ⟨h, by simp [runMeasures]⟩
    | cons e rest ih =>
        intro h
        have hstep := measure_and_broadcast_ok_false st e.1 e.2 h
        have ihr := ih (measure_and_broadcast st e.1 e.2).1 hstep.1
        refine ⟨ihr.1, ?_⟩
        intro m hm
        rw [show runMeasures st (e :: rest) =
            ((runMeasures (measure_and_broadcast st e.1 e.2).1 rest).1,
              (measure_and_broadcast st e.1 e.2).2 ++
                (runMeasures (measure_and_broadcast st e.1 e.2).1 rest).2)
          from rfl] at hm
        rcases List.mem_append.mp hm with hm | hm
        · exact hstep.2 m hm
        · exact ihr.2 m hm

/-- C10 witness: a fresh node whose first read fails has `ok = false`; from
a broken-camera state two further epochs keep `ok = false` and the node's
epoch-1 broadcast is invalid. -/
theorem c10_camera_failure_is_permanent_witness :
    (measure_and_broadcast ⟨0, true, [], []⟩ 0 none).1.ok = false ∧
    (runMeasures ⟨0, false, [], []⟩ [(1, some (true, 4)), (2, none)]).1.ok = false ∧
    (⟨1, 0, false, 0, false⟩ : ObsMsg).valid = false :=
  ⟨c10_camera_failure_is_permanent.1 ⟨0, true, [], []⟩ 0,
    (c10_camera_failure_is_permanent.2 ⟨0, false, [], []⟩
      [(1, some (true, 4)), (2, none)] rfl).1,
    (c10_camera_failure_is_permanent.2 ⟨0, false, [], []⟩
      [(1, some (true, 4)), (2, none)] rfl).2 ⟨1, 0, false, 0, false⟩ (by decide)⟩

end Gossip
